import Mathlib

/-!
Verification of the post-listing core of the dev-blog repository
(`src/lib/posts copy 1.ts` and `src/lib/posts.ts`).

The development shallowly embeds:
  * the raw store documents and the `PostSummary` projection,
  * the query constraints that `getPostsWithOptions`, `getPosts` and
    `subscribeToPostsRealtime` push onto their Firestore queries,
  * the Document Store Client's execution of such a constraint list
    (equality filter, descending `createdAt` sort with the store's
    document-id tie-break, resume-after cursor, result bound),
  * the pure post-processing that `getPostsWithOptions` performs on the
    returned snapshot (over-fetch-by-one `hasMore` detection, page slice,
    normalization, continuation cursor).

Machine integers do not occur: `createdAt` is a store timestamp modelled
as `Int`, counts are `Nat`.
-/

namespace DevBlog

/-- Raw post document held by the store: the opaque document id plus the
field mapping written by `createPost`. -/
structure RawDoc where
  id : String
  title : String
  category : Option String
  createdAt : Int
  authorId : String
  authorEmail : String
  authorDisplayName : Option String
  viewCount : Int
  thumbnailUrl : Option String
  deriving Repr, DecidableEq

/-- Listing projection of a post.  Fields that a given normalization does
not set are `none`, matching a missing (undefined) property of the
JavaScript object literal. -/
structure PostSummary where
  id : String
  title : String
  category : Option String
  createdAt : Int
  authorId : Option String
  authorEmail : String
  authorDisplayName : Option String
  viewCount : Option Int
  thumbnailUrl : Option (Option String)
  deriving Repr, DecidableEq

/-- Normalization used by `getPosts` (both source files): all nine
`PostSummary` fields are copied from the raw document. -/
def summarizeFull (d : RawDoc) : PostSummary :=
  ⟨d.id, d.title, d.category, d.createdAt, some d.authorId, d.authorEmail,
    d.authorDisplayName, some d.viewCount, some d.thumbnailUrl⟩

/-- Normalization used by `getPostsWithOptions` and
`subscribeToPostsRealtime`: only `id`, `title`, `category`, `authorEmail`,
`authorDisplayName` and `createdAt` are copied; `authorId`, `viewCount`
and `thumbnailUrl` are left unset. -/
def summarizeListed (d : RawDoc) : PostSummary :=
  ⟨d.id, d.title, d.category, d.createdAt, none, d.authorEmail,
    d.authorDisplayName, none, none⟩

/-- Query constraints the repository pushes: exactly the four Firestore
constructors it uses, specialised to the fields it names
(`where("category", "==", v)`, `orderBy("createdAt", "desc")`,
`startAfter(doc)`, `limit(n)`). -/
inductive QueryConstraint where
  | whereCategoryEq (value : String)
  | orderByCreatedAtDesc
  | startAfterDoc (cursor : RawDoc)
  | limitN (n : Nat)
  deriving Repr, DecidableEq

/-- Strict result order of a descending-`createdAt` query: the store
breaks `createdAt` ties by the implicit ascending document-id sort key. -/
def docLt (a b : RawDoc) : Prop :=
  b.createdAt < a.createdAt ∨ (a.createdAt = b.createdAt ∧ a.id < b.id)

/-- Reflexive closure of `docLt`, the relation the sort is performed with. -/
def docLe (a b : RawDoc) : Prop :=
  b.createdAt < a.createdAt ∨ (a.createdAt = b.createdAt ∧ a.id ≤ b.id)

instance (a b : RawDoc) : Decidable (docLt a b) := by
  unfold docLt; infer_instance

instance (a b : RawDoc) : Decidable (docLe a b) := by
  unfold docLe; infer_instance

instance : IsTotal RawDoc docLe where
  total a b := by
    rcases lt_trichotomy a.createdAt b.createdAt with h | h | h
    · exact Or.inr (Or.inl h)
    · rcases le_total a.id b.id with hid | hid
      · exact Or.inl (Or.inr ⟨h, hid⟩)
      · exact Or.inr (Or.inr ⟨h.symm, hid⟩)
    · exact Or.inl (Or.inl h)

instance : IsTrans RawDoc docLe where
  trans a b c hab hbc := by
    rcases hab with hab | ⟨hab, hab'⟩ <;> rcases hbc with hbc | ⟨hbc, hbc'⟩
    · exact Or.inl (hbc.trans hab)
    · exact Or.inl (hbc ▸ hab)
    · exact Or.inl (hab ▸ hbc)
    · exact Or.inr ⟨hab.trans hbc, hab'.trans hbc'⟩

theorem docLt_irrefl (a : RawDoc) : ¬ docLt a a := by
  rintro (h | ⟨-, h⟩)
  · exact lt_irrefl _ h
  · exact lt_irrefl _ h

theorem docLt_asymm {a b : RawDoc} (h : docLt a b) : ¬ docLt b a := by
  rintro (h' | ⟨h', h''⟩) <;> rcases h with h | ⟨hₑ, hᵢ⟩
  · exact absurd h' (not_lt_of_lt h)
  · exact absurd h' (hₑ ▸ lt_irrefl _)
  · exact absurd h (h' ▸ lt_irrefl _)
  · exact absurd h'' (not_lt_of_lt hᵢ)

theorem docLe_of_docLt {a b : RawDoc} (h : docLt a b) : docLe a b := by
  rcases h with h | ⟨h, h'⟩
  · exact Or.inl h
  · exact Or.inr ⟨h, le_of_lt h'⟩

theorem docLt_of_docLe_of_ne_id {a b : RawDoc} (h : docLe a b)
    (hne : a.id ≠ b.id) : docLt a b := by
  rcases h with h | ⟨h, h'⟩
  · exact Or.inl h
  · exact Or.inr ⟨h, lt_of_le_of_ne h' hne⟩

/-- Document Store Client semantics for one constraint (spec §6): the
equality filter keeps matching documents, the sort orders by the
descending-`createdAt` key, resume-after keeps the documents strictly
after the cursor's position in that order, and the bound truncates. -/
def applyConstraint (docs : List RawDoc) : QueryConstraint → List RawDoc
  | QueryConstraint.whereCategoryEq v => docs.filter fun d => decide (d.category = some v)
  | QueryConstraint.orderByCreatedAtDesc => List.insertionSort docLe docs
  | QueryConstraint.startAfterDoc c => docs.filter fun d => decide (docLt c d)
  | QueryConstraint.limitN n => docs.take n

/-- Document Store Client execution of a whole constraint list over the
current post collection (spec §6). -/
def storeExec (coll : List RawDoc) (cs : List QueryConstraint) : List RawDoc :=
  cs.foldl applyConstraint coll

/-- Options record of `getPostsWithOptions`; a `none` field is an omitted
property, subject to the source's destructuring defaults. -/
structure GetPostsOptions where
  category : Option String
  limitCount : Option Nat
  lastDoc : Option RawDoc
  deriving Repr, DecidableEq

/-- Result record of `getPostsWithOptions`. -/
structure GetPostsResult where
  posts : List PostSummary
  lastDoc : Option RawDoc
  hasMore : Bool
  deriving Repr, DecidableEq

/-- Constraint list `getPostsWithOptions` pushes, in push order: the
category filter when a category is given, the descending `createdAt`
sort, `startAfter` when a cursor is given, and `limit (limitCount + 1)`. -/
def buildConstraints (category : Option String) (lastDoc : Option RawDoc)
    (limitCount : Nat) : List QueryConstraint :=
  (match category with
    | some c => [QueryConstraint.whereCategoryEq c]
    | none => []) ++
  [QueryConstraint.orderByCreatedAtDesc] ++
  (match lastDoc with
    | some d => [QueryConstraint.startAfterDoc d]
    | none => []) ++
  [QueryConstraint.limitN (limitCount + 1)]

/-- Pure post-processing of `getPostsWithOptions` on the returned
snapshot: over-fetch-by-one `hasMore` test, page slice, normalization,
and the continuation cursor. -/
def getPostsPage (limitCount : Nat) (snapshotDocs : List RawDoc) : GetPostsResult :=
  let hasMore : Bool := decide (limitCount < snapshotDocs.length)
  let docs : List RawDoc := if hasMore then snapshotDocs.take limitCount else snapshotDocs
  ⟨docs.map summarizeListed,
    if 0 < docs.length then docs.getLast? else none,
    hasMore⟩

/-- Whole `getPostsWithOptions` call against a given store collection:
destructuring defaults (`limitCount = 5`), query construction, store
execution, post-processing. -/
def getPostsWithOptions (coll : List RawDoc) (options : GetPostsOptions) :
    GetPostsResult :=
  let limitCount := options.limitCount.getD 5
  getPostsPage limitCount
    (storeExec coll (buildConstraints options.category options.lastDoc limitCount))

/-- Fallible variant of `getPostsWithOptions`, parametrized by a store
executor that may reject the query: the code has no catch around
`getDocs`, so a rejection propagates as-is and nothing else runs. -/
def getPostsWithOptionsE {ε : Type} (exec : List QueryConstraint → Except ε (List RawDoc))
    (options : GetPostsOptions) : Except ε GetPostsResult :=
  let limitCount := options.limitCount.getD 5
  match exec (buildConstraints options.category options.lastDoc limitCount) with
  | Except.error e => Except.error e
  | Except.ok snapshotDocs => Except.ok (getPostsPage limitCount snapshotDocs)

/-- Options record of `subscribeToPostsRealtime`. -/
structure SubscribeOptions where
  category : Option String
  limitCount : Option Nat
  deriving Repr, DecidableEq

/-- Constraint list `subscribeToPostsRealtime` pushes, in push order:
the category filter when a category is given, the descending `createdAt`
sort, and `limit limitCount` (no cursor, no over-fetch). -/
def subscribeConstraints (category : Option String) (limitCount : Nat) :
    List QueryConstraint :=
  (match category with
    | some c => [QueryConstraint.whereCategoryEq c]
    | none => []) ++
  [QueryConstraint.orderByCreatedAtDesc, QueryConstraint.limitN limitCount]

/-- Normalization the `onSnapshot` callback of `subscribeToPostsRealtime`
applies to one delivered snapshot before invoking the caller's callback. -/
def subscribeSnapshotPosts (snapshotDocs : List RawDoc) : List PostSummary :=
  snapshotDocs.map summarizeListed

/-- Modelled from the spec: the Document Store Client's change-notification
mechanism (spec §6) is absent from the repository, so its delivery schedule
is taken from the spec: the standing query registered by
`subscribeToPostsRealtime` is evaluated once against the collection state
current at registration and once against each subsequently observed state,
and the caller's callback receives each evaluation normalized.  The
argument `initial` is the collection at registration and `updates` the
later states. -/
def subscribeInvocations (options : SubscribeOptions) (initial : List RawDoc)
    (updates : List (List RawDoc)) : List (List PostSummary) :=
  let limitCount := options.limitCount.getD 20
  (initial :: updates).map fun coll =>
    subscribeSnapshotPosts (storeExec coll (subscribeConstraints options.category limitCount))

/-- Constraint list of `getPosts` in `src/lib/posts.ts`: a single
descending `createdAt` sort. -/
def getPostsConstraintsMain : List QueryConstraint :=
  [QueryConstraint.orderByCreatedAtDesc]

/-- Constraint list of `getPosts` in `src/lib/posts copy 1.ts`: a single
descending `createdAt` sort. -/
def getPostsConstraintsCopy : List QueryConstraint :=
  [QueryConstraint.orderByCreatedAtDesc]

/-- Snapshot mapping of `getPosts` in `src/lib/posts.ts`: every document
becomes a nine-field summary. -/
def getPostsMap_main (snapshotDocs : List RawDoc) : List PostSummary :=
  snapshotDocs.map fun d =>
    ⟨d.id, d.title, d.category, d.createdAt, some d.authorId, d.authorEmail,
      d.authorDisplayName, some d.viewCount, some d.thumbnailUrl⟩

/-- Snapshot mapping of `getPosts` in `src/lib/posts copy 1.ts`: every
document becomes a nine-field summary. -/
def getPostsMap_copy (snapshotDocs : List RawDoc) : List PostSummary :=
  snapshotDocs.map fun d =>
    ⟨d.id, d.title, d.category, d.createdAt, some d.authorId, d.authorEmail,
      d.authorDisplayName, some d.viewCount, some d.thumbnailUrl⟩

/-- Modelled from the spec: the store-side subscription registry (spec §6)
is not repository code.  A registry state is the list of ids of the
currently registered standing queries; an observed change delivers one
callback invocation to every registered subscription, and `cancel sid`
unregisters subscription `sid` (the repository's `subscribeToPostsRealtime`
returns exactly this `cancel` operation for the id it registered). -/
inductive StoreEvent where
  | change (newDocs : List RawDoc)
  | cancel (sid : Nat)
  deriving Repr, DecidableEq

/-- Modelled from the spec: invocation schedule of the change-notification
mechanism, one entry per event, listing the subscriptions whose callbacks
are invoked for that event. -/
def invocationsAfter (active : List Nat) : List StoreEvent → List (List Nat)
  | [] => []
  | StoreEvent.change _ :: es => active :: invocationsAfter active es
  | StoreEvent.cancel s :: es => [] :: invocationsAfter (active.erase s) es

/-- Matching predicate of a listing query: the category filter when one is
given, trivial otherwise. -/
def matchesCategory (category : Option String) (d : RawDoc) : Bool :=
  match category with
  | none => true
  | some c => decide (d.category = some c)

/-- Matching documents of the collection in store result order. -/
def sortedMatching (coll : List RawDoc) (category : Option String) : List RawDoc :=
  List.insertionSort docLe (coll.filter (matchesCategory category))

/-- Suffix of the result order that a resume-after cursor selects. -/
def afterCursor (sorted : List RawDoc) (cursor : Option RawDoc) : List RawDoc :=
  match cursor with
  | none => sorted
  | some c => sorted.filter fun d => decide (docLt c d)

/-- Cursor-chaining walk of spec §8: call `getPostsWithOptions`, follow
the returned `lastDoc` while `hasMore` holds, collect the pages.  `fuel`
bounds the number of calls. -/
def chainPages (coll : List RawDoc) (category : Option String) (pageSize : Nat) :
    Nat → Option RawDoc → List (List PostSummary)
  | 0, _ => []
  | Nat.succ fuel, cursor =>
    let r := getPostsWithOptions coll ⟨category, some pageSize, cursor⟩
    if r.hasMore then r.posts :: chainPages coll category pageSize fuel r.lastDoc
    else [r.posts]

/-- Sample document (category tech, newest). -/
def sampleDoc : RawDoc :=
  ⟨"p1", "hello", some "tech", 5, "u1", "kim@example.com", some "Kim", 7, some "t.png"⟩

/-- Sample document (category life, older). -/
def sampleDoc2 : RawDoc :=
  ⟨"p2", "world", some "life", 3, "u2", "lee@example.com", none, 0, none⟩

theorem matchesCategory_none_eq : matchesCategory none = fun _ => true := rfl

theorem matchesCategory_some_eq (c : String) :
    matchesCategory (some c) = fun d => decide (d.category = some c) := rfl

theorem filter_matchesCategory_none (coll : List RawDoc) :
    coll.filter (matchesCategory none) = coll := by
  rw [matchesCategory_none_eq, List.filter_true]

/-- Executing the constraint list built by `getPostsWithOptions` yields the
first `limitCount + 1` matching documents after the cursor, in result
order. -/
theorem storeExec_buildConstraints (coll : List RawDoc) (category : Option String)
    (cursor : Option RawDoc) (n : Nat) :
    storeExec coll (buildConstraints category cursor n)
      = (afterCursor (sortedMatching coll category) cursor).take (n + 1) := by
  cases category <;> cases cursor <;>
    simp [storeExec, buildConstraints, applyConstraint, sortedMatching, afterCursor,
      filter_matchesCategory_none, matchesCategory_some_eq]

theorem getPostsWithOptions_eq_page (coll : List RawDoc) (category : Option String)
    (pageSize : Nat) (cursor : Option RawDoc) :
    getPostsWithOptions coll ⟨category, some pageSize, cursor⟩
      = getPostsPage pageSize
          ((afterCursor (sortedMatching coll category) cursor).take (pageSize + 1)) := by
  unfold getPostsWithOptions
  simp [storeExec_buildConstraints]

theorem getPostsPage_of_lt {n : Nat} {snap : List RawDoc} (h : n < snap.length) :
    getPostsPage n snap =
      ⟨(snap.take n).map summarizeListed,
        if 0 < (snap.take n).length then (snap.take n).getLast? else none,
        true⟩ := by
  simp [getPostsPage, h]

theorem getPostsPage_of_ge {n : Nat} {snap : List RawDoc} (h : snap.length ≤ n) :
    getPostsPage n snap =
      ⟨snap.map summarizeListed,
        if 0 < snap.length then snap.getLast? else none,
        false⟩ := by
  simp [getPostsPage, Nat.not_lt.mpr h]

/-- Within a strictly ordered result list, the documents strictly after a
given member are exactly the suffix behind it. -/
theorem filter_docLt_middle (pre post : List RawDoc) (d : RawDoc)
    (h : (pre ++ d :: post).Pairwise docLt) :
    (pre ++ d :: post).filter (fun x => decide (docLt d x)) = post := by
  rw [List.pairwise_append] at h
  obtain ⟨h₁, h₂, h₃⟩ := h
  rw [List.pairwise_cons] at h₂
  have hpre : pre.filter (fun x => decide (docLt d x)) = [] := by
    rw [List.filter_eq_nil_iff]
    intro x hx
    simpa using docLt_asymm (h₃ x hx d (List.mem_cons_self d post))
  have hpost : post.filter (fun x => decide (docLt d x)) = post := by
    rw [List.filter_eq_self]
    intro x hx
    simpa using h₂.1 x hx
  rw [List.filter_append, hpre, List.filter_cons,
    if_neg (by simpa using docLt_irrefl d), hpost, List.nil_append]

theorem sorted_sortedMatching (coll : List RawDoc) (category : Option String) :
    List.Sorted docLe (sortedMatching coll category) :=
  List.sorted_insertionSort docLe _

theorem perm_sortedMatching (coll : List RawDoc) (category : Option String) :
    (sortedMatching coll category).Perm (coll.filter (matchesCategory category)) :=
  List.perm_insertionSort docLe _

theorem pairwise_docLt_sortedMatching (coll : List RawDoc) (category : Option String)
    (h : (coll.map RawDoc.id).Nodup) :
    (sortedMatching coll category).Pairwise docLt := by
  have h₁ : ((coll.filter (matchesCategory category)).map RawDoc.id).Nodup :=
    ((List.filter_sublist coll).map RawDoc.id).nodup h
  have h₂ : ((sortedMatching coll category).map RawDoc.id).Nodup :=
    (((perm_sortedMatching coll category).map RawDoc.id).nodup_iff).mpr h₁
  have h₃ : (sortedMatching coll category).Pairwise fun a b => a.id ≠ b.id :=
    List.pairwise_map.mp h₂
  exact ((sorted_sortedMatching coll category).and h₃).imp
    fun hab => docLt_of_docLe_of_ne_id hab.1 hab.2

theorem page_hasMore_of_lt {n : Nat} {snap : List RawDoc} (h : n < snap.length) :
    (getPostsPage n snap).hasMore = true := by
  rw [getPostsPage_of_lt h]

theorem page_posts_of_lt {n : Nat} {snap : List RawDoc} (h : n < snap.length) :
    (getPostsPage n snap).posts = (snap.take n).map summarizeListed := by
  rw [getPostsPage_of_lt h]

theorem page_lastDoc_of_lt {n : Nat} {snap : List RawDoc} (h : n < snap.length)
    (hn : 0 < n) : (getPostsPage n snap).lastDoc = (snap.take n).getLast? := by
  rw [getPostsPage_of_lt h]
  exact if_pos (by rw [List.length_take]; omega)

theorem page_hasMore_of_ge {n : Nat} {snap : List RawDoc} (h : snap.length ≤ n) :
    (getPostsPage n snap).hasMore = false := by
  rw [getPostsPage_of_ge h]

theorem page_posts_of_ge {n : Nat} {snap : List RawDoc} (h : snap.length ≤ n) :
    (getPostsPage n snap).posts = snap.map summarizeListed := by
  rw [getPostsPage_of_ge h]

theorem chainPages_succ (coll : List RawDoc) (category : Option String)
    (pageSize fuel : Nat) (cursor : Option RawDoc) :
    chainPages coll category pageSize (fuel + 1) cursor
      = if (getPostsWithOptions coll ⟨category, some pageSize, cursor⟩).hasMore
        then (getPostsWithOptions coll ⟨category, some pageSize, cursor⟩).posts ::
          chainPages coll category pageSize fuel
            (getPostsWithOptions coll ⟨category, some pageSize, cursor⟩).lastDoc
        else [(getPostsWithOptions coll ⟨category, some pageSize, cursor⟩).posts] := rfl

/-- Induction core of the chaining walk: if the documents still to visit
are a suffix `rest` of the strictly ordered matching list selected by the
current cursor, the walk delivers exactly `rest`, normalized. -/
theorem chainPages_flatten_aux (coll : List RawDoc) (category : Option String)
    (pageSize : Nat) (hps : 1 ≤ pageSize) :
    ∀ fuel : Nat, ∀ cursor : Option RawDoc, ∀ pre rest : List RawDoc,
      sortedMatching coll category = pre ++ rest →
      (pre ++ rest).Pairwise docLt →
      afterCursor (sortedMatching coll category) cursor = rest →
      rest.length < fuel →
      (chainPages coll category pageSize fuel cursor).flatten
        = rest.map summarizeListed := by
  intro fuel
  induction fuel with
  | zero =>
    intro cursor pre rest _ _ _ hlen
    exact absurd hlen (Nat.not_lt_zero _)
  | succ fuel ih =>
    intro cursor pre rest hM hpw hcur hlen
    have hr : getPostsWithOptions coll ⟨category, some pageSize, cursor⟩
        = getPostsPage pageSize (rest.take (pageSize + 1)) := by
      rw [getPostsWithOptions_eq_page, hcur]
    by_cases hmore : pageSize < rest.length
    · -- another page exists: the over-fetch found pageSize + 1 documents
      have hsnap : (rest.take (pageSize + 1)).length = pageSize + 1 := by
        rw [List.length_take]; omega
      have hlt : pageSize < (rest.take (pageSize + 1)).length := by omega
      have htt : (rest.take (pageSize + 1)).take pageSize = rest.take pageSize := by
        rw [List.take_take]; congr 1; omega
      have hdlen : (rest.take pageSize).length = pageSize := by
        rw [List.length_take]; omega
      have hne : rest.take pageSize ≠ [] := by
        intro h0
        rw [h0] at hdlen
        simp at hdlen
        omega
      obtain ⟨ys, d, hyd⟩ := (rest.take pageSize).eq_nil_or_concat.resolve_left hne
      rw [List.concat_eq_append] at hyd
      have hMeq : pre ++ rest = (pre ++ ys) ++ d :: rest.drop pageSize := by
        conv_lhs => rw [← List.take_append_drop pageSize rest, hyd]
        simp
      have hpw' : ((pre ++ ys) ++ d :: rest.drop pageSize).Pairwise docLt := by
        rw [← hMeq]; exact hpw
      have hcur' : afterCursor (sortedMatching coll category) (some d)
          = rest.drop pageSize := by
        show (sortedMatching coll category).filter (fun x => decide (docLt d x))
            = rest.drop pageSize
        rw [hM, hMeq]
        exact filter_docLt_middle _ _ _ hpw'
      have hlast : (rest.take pageSize).getLast? = some d := by
        rw [hyd]
        exact List.getLast?_concat _
      have hrec := ih (some d) ((pre ++ ys) ++ [d]) (rest.drop pageSize)
        (by rw [hM, hMeq]; simp)
        (by have h9 : ((pre ++ ys) ++ [d]) ++ rest.drop pageSize
              = (pre ++ ys) ++ d :: rest.drop pageSize := by simp
            rw [h9]; exact hpw')
        hcur' (by rw [List.length_drop]; omega)
      rw [chainPages_succ, hr, page_hasMore_of_lt hlt, page_posts_of_lt hlt,
        page_lastDoc_of_lt hlt (by omega), htt, hlast, if_pos rfl,
        List.flatten_cons, hrec, ← List.map_append, List.take_append_drop]
    · -- final page: at most pageSize documents remain
      have hle : rest.length ≤ pageSize := Nat.not_lt.mp hmore
      have htake : rest.take (pageSize + 1) = rest :=
        List.take_of_length_le (by omega)
      rw [chainPages_succ, hr, htake, page_hasMore_of_ge hle, page_posts_of_ge hle,
        if_neg (by simp)]
      simp

theorem summarizeListed_id_comp :
    (PostSummary.id ∘ summarizeListed) = RawDoc.id :=
  funext fun _ => rfl

theorem docLe_createdAt {a b : RawDoc} (h : docLe a b) :
    b.createdAt ≤ a.createdAt := by
  rcases h with h | ⟨h, _⟩
  · exact le_of_lt h
  · exact le_of_eq h.symm

/-- C2: chaining `getPostsWithOptions` through `lastDoc` until `hasMore`
is false delivers the normalized form of the whole matching set, hence
every matching document exactly once, with no duplicates, no gaps, and in
descending `createdAt` order. -/
theorem claim2_chain_pagination (coll : List RawDoc) (category : Option String)
    (pageSize : Nat) (hps : 1 ≤ pageSize) (hids : (coll.map RawDoc.id).Nodup) :
    (chainPages coll category pageSize (coll.length + 1) none).flatten
        = (sortedMatching coll category).map summarizeListed
    ∧ ((chainPages coll category pageSize (coll.length + 1) none).flatten.map
          PostSummary.id).Perm
        ((coll.filter (matchesCategory category)).map RawDoc.id)
    ∧ (chainPages coll category pageSize (coll.length + 1) none).flatten.Pairwise
        (fun a b => b.createdAt ≤ a.createdAt) := by
  have hpw := pairwise_docLt_sortedMatching coll category hids
  have hlen : (sortedMatching coll category).length < coll.length + 1 := by
    have h1 := (perm_sortedMatching coll category).length_eq
    have h2 := List.length_filter_le (matchesCategory category) coll
    omega
  have hmain := chainPages_flatten_aux coll category pageSize hps (coll.length + 1)
    none [] (sortedMatching coll category) (by simp) (by simpa using hpw) rfl hlen
  refine ⟨hmain, ?_, ?_⟩
  · rw [hmain, List.map_map, summarizeListed_id_comp]
    exact (perm_sortedMatching coll category).map RawDoc.id
  · rw [hmain]
    exact List.pairwise_map.mpr
      ((sorted_sortedMatching coll category).imp fun h => docLe_createdAt h)

/-- C2 witness: the chaining walk on a concrete two-document collection. -/
theorem claim2_chain_pagination_witness :
    (chainPages [sampleDoc, sampleDoc2] none 1
          (([sampleDoc, sampleDoc2] : List RawDoc).length + 1) none).flatten
        = (sortedMatching [sampleDoc, sampleDoc2] none).map summarizeListed
    ∧ ((chainPages [sampleDoc, sampleDoc2] none 1
          (([sampleDoc, sampleDoc2] : List RawDoc).length + 1) none).flatten.map
          PostSummary.id).Perm
        (([sampleDoc, sampleDoc2].filter (matchesCategory none)).map RawDoc.id)
    ∧ (chainPages [sampleDoc, sampleDoc2] none 1
          (([sampleDoc, sampleDoc2] : List RawDoc).length + 1) none).flatten.Pairwise
        (fun a b => b.createdAt ≤ a.createdAt) :=
  claim2_chain_pagination [sampleDoc, sampleDoc2] none 1 (by decide) (by decide)

/-- C1: with `pageSize ≥ 1`, when the store returns at most `pageSize + 1`
documents, `hasMore` is exactly "more than `pageSize` documents came back",
the items are the first `pageSize` returned documents when `hasMore` holds
and all of them otherwise, and at most `pageSize` items are returned. -/
theorem claim1_fetchPage_shape (pageSize : Nat) (snapshotDocs : List RawDoc)
    (hps : 1 ≤ pageSize) (hlen : snapshotDocs.length ≤ pageSize + 1) :
    (getPostsPage pageSize snapshotDocs).hasMore
        = decide (pageSize < snapshotDocs.length)
    ∧ (getPostsPage pageSize snapshotDocs).posts
        = (if pageSize < snapshotDocs.length then snapshotDocs.take pageSize
           else snapshotDocs).map summarizeListed
    ∧ (getPostsPage pageSize snapshotDocs).posts.length ≤ pageSize := by
  by_cases h : pageSize < snapshotDocs.length
  · refine ⟨?_, ?_, ?_⟩
    · rw [page_hasMore_of_lt h]; simp [h]
    · rw [page_posts_of_lt h, if_pos h]
    · rw [page_posts_of_lt h]
      simp [List.length_take]
  · have hle := Nat.not_lt.mp h
    refine ⟨?_, ?_, ?_⟩
    · rw [page_hasMore_of_ge hle]; simp [h]
    · rw [page_posts_of_ge hle, if_neg h]
    · rw [page_posts_of_ge hle]; simpa using hle

/-- C1 witness: a two-document snapshot against page size one. -/
theorem claim1_fetchPage_shape_witness :
    (getPostsPage 1 [sampleDoc, sampleDoc2]).hasMore
        = decide (1 < ([sampleDoc, sampleDoc2] : List RawDoc).length)
    ∧ (getPostsPage 1 [sampleDoc, sampleDoc2]).posts
        = (if 1 < ([sampleDoc, sampleDoc2] : List RawDoc).length
           then [sampleDoc, sampleDoc2].take 1
           else [sampleDoc, sampleDoc2]).map summarizeListed
    ∧ (getPostsPage 1 [sampleDoc, sampleDoc2]).posts.length ≤ 1 :=
  claim1_fetchPage_shape 1 [sampleDoc, sampleDoc2] (by decide) (by decide)

/-- C3 counterexample: the normalization used for `getPostsWithOptions`
items leaves `authorId`, `viewCount` and `thumbnailUrl` unset, so at a
concrete document with `viewCount = 7` the returned item does not carry
those raw-document fields. -/
theorem claim3_counterexample :
    (getPostsPage 1 [sampleDoc]).posts = [summarizeListed sampleDoc]
    ∧ sampleDoc.viewCount = 7
    ∧ (summarizeListed sampleDoc).viewCount = none
    ∧ (summarizeListed sampleDoc).viewCount ≠ some sampleDoc.viewCount
    ∧ (summarizeListed sampleDoc).authorId ≠ some sampleDoc.authorId
    ∧ (summarizeListed sampleDoc).thumbnailUrl ≠ some sampleDoc.thumbnailUrl := by
  refine ⟨?_, rfl, rfl, by decide, by decide, by decide⟩
  rfl

/-- C3 (amended): every item produced by `getPostsWithOptions` and every
item delivered to a `subscribeToPostsRealtime` callback is a raw document
normalized to a record carrying `id`, `title`, `category`, `createdAt`,
`authorEmail` and `authorDisplayName` copied from the document, with
`authorId`, `viewCount` and `thumbnailUrl` left unset. -/
theorem claim3_amended_normalization (n : Nat)
    (snapshotDocs otherDocs : List RawDoc) (d : RawDoc) :
    (getPostsPage n snapshotDocs).posts
        = (if n < snapshotDocs.length then snapshotDocs.take n
           else snapshotDocs).map summarizeListed
    ∧ subscribeSnapshotPosts otherDocs = otherDocs.map summarizeListed
    ∧ (summarizeListed d).id = d.id
    ∧ (summarizeListed d).title = d.title
    ∧ (summarizeListed d).category = d.category
    ∧ (summarizeListed d).createdAt = d.createdAt
    ∧ (summarizeListed d).authorEmail = d.authorEmail
    ∧ (summarizeListed d).authorDisplayName = d.authorDisplayName
    ∧ (summarizeListed d).authorId = none
    ∧ (summarizeListed d).viewCount = none
    ∧ (summarizeListed d).thumbnailUrl = none := by
  refine ⟨?_, rfl, rfl, rfl, rfl, rfl, rfl, rfl, rfl, rfl, rfl⟩
  by_cases h : n < snapshotDocs.length
  · rw [page_posts_of_lt h, if_pos h]
  · rw [page_posts_of_ge (Nat.not_lt.mp h), if_neg h]

theorem guarded_getLast? (l : List RawDoc) :
    (if 0 < l.length then l.getLast? else none) = l.getLast? := by
  by_cases h : 0 < l.length
  · rw [if_pos h]
  · rw [if_neg h]
    have h0 : l = [] := List.eq_nil_of_length_eq_zero (by omega)
    rw [h0]
    rfl

theorem page_lastDoc_eq (n : Nat) (snap : List RawDoc) :
    (getPostsPage n snap).lastDoc
      = (if n < snap.length then snap.take n else snap).getLast? := by
  by_cases h : n < snap.length
  · rw [getPostsPage_of_lt h, if_pos h]
    exact guarded_getLast? _
  · rw [getPostsPage_of_ge (Nat.not_lt.mp h), if_neg h]
    exact guarded_getLast? _

theorem getLast?_map_summarizeListed (l : List RawDoc) :
    (l.map summarizeListed).getLast? = l.getLast?.map summarizeListed := by
  induction l with
  | nil => rfl
  | cons a l ih =>
    cases l with
    | nil => rfl
    | cons b t => simpa using ih

theorem sortedMatching_of_filter_nil {coll : List RawDoc} {category : Option String}
    (h : coll.filter (matchesCategory category) = []) :
    sortedMatching coll category = [] := by
  unfold sortedMatching
  rw [h]
  rfl

theorem afterCursor_nil (cursor : Option RawDoc) : afterCursor [] cursor = [] := by
  cases cursor <;> rfl

/-- C4: `lastDoc` is `none` exactly when the items list is empty, and
otherwise is the raw handle of the last returned item (its normalization
is the last item); on an empty matching set the whole result is
`⟨[], none, false⟩`. -/
theorem claim4_nextCursor (n : Nat) (snap coll : List RawDoc)
    (options : GetPostsOptions)
    (hempty : coll.filter (matchesCategory options.category) = []) :
    ((getPostsPage n snap).lastDoc = none ↔ (getPostsPage n snap).posts = [])
    ∧ (getPostsPage n snap).lastDoc.map summarizeListed
        = (getPostsPage n snap).posts.getLast?
    ∧ getPostsWithOptions coll options = ⟨[], none, false⟩ := by
  have hdocs : (getPostsPage n snap).posts
      = (if n < snap.length then snap.take n else snap).map summarizeListed := by
    by_cases h : n < snap.length
    · rw [page_posts_of_lt h, if_pos h]
    · rw [page_posts_of_ge (Nat.not_lt.mp h), if_neg h]
  refine ⟨?_, ?_, ?_⟩
  · rw [page_lastDoc_eq, hdocs]
    cases hcase : (if n < snap.length then snap.take n else snap) with
    | nil => simp
    | cons a t =>
      constructor
      · intro h
        exact absurd h (by simp [List.getLast?_concat])
      · intro h
        simp at h
  · rw [page_lastDoc_eq, hdocs, getLast?_map_summarizeListed]
  · show getPostsPage (options.limitCount.getD 5)
        (storeExec coll
          (buildConstraints options.category options.lastDoc
            (options.limitCount.getD 5))) = _
    rw [storeExec_buildConstraints, sortedMatching_of_filter_nil hempty,
      afterCursor_nil]
    rw [getPostsPage_of_ge (by simp)]
    rfl

/-- C4 witness: a singleton snapshot and an empty collection. -/
theorem claim4_nextCursor_witness :
    ((getPostsPage 1 [sampleDoc]).lastDoc = none
        ↔ (getPostsPage 1 [sampleDoc]).posts = [])
    ∧ (getPostsPage 1 [sampleDoc]).lastDoc.map summarizeListed
        = (getPostsPage 1 [sampleDoc]).posts.getLast?
    ∧ getPostsWithOptions [] ⟨some "tech", none, none⟩ = ⟨[], none, false⟩ :=
  claim4_nextCursor 1 [sampleDoc] [] ⟨some "tech", none, none⟩ rfl

/-- C5: `getPostsWithOptions` issues one query whose constraints are, in
order, the category equality filter iff a category is provided, the
descending `createdAt` sort, the resume-after constraint iff a cursor is
provided, and a result bound of `pageSize + 1`, with `pageSize`
defaulting to 5 when unspecified. -/
theorem claim5_query_construction (options : GetPostsOptions) (coll : List RawDoc) :
    buildConstraints options.category options.lastDoc (options.limitCount.getD 5)
        = (match options.category with
            | some c => [QueryConstraint.whereCategoryEq c]
            | none => [])
          ++ [QueryConstraint.orderByCreatedAtDesc]
          ++ (match options.lastDoc with
            | some d => [QueryConstraint.startAfterDoc d]
            | none => [])
          ++ [QueryConstraint.limitN (options.limitCount.getD 5 + 1)]
    ∧ (∀ c, QueryConstraint.whereCategoryEq c
          ∈ buildConstraints options.category options.lastDoc (options.limitCount.getD 5)
        ↔ options.category = some c)
    ∧ (∀ d, QueryConstraint.startAfterDoc d
          ∈ buildConstraints options.category options.lastDoc (options.limitCount.getD 5)
        ↔ options.lastDoc = some d)
    ∧ (∀ m, QueryConstraint.limitN m
          ∈ buildConstraints options.category options.lastDoc (options.limitCount.getD 5)
        ↔ m = options.limitCount.getD 5 + 1)
    ∧ (options.limitCount = none → options.limitCount.getD 5 = 5)
    ∧ getPostsWithOptions coll options
        = getPostsPage (options.limitCount.getD 5)
            (storeExec coll
              (buildConstraints options.category options.lastDoc
                (options.limitCount.getD 5))) := by
  obtain ⟨cat, lim, cur⟩ := options
  refine ⟨rfl, ?_, ?_, ?_, ?_, rfl⟩
  · intro c
    cases cat <;> cases cur <;> simp [buildConstraints, eq_comm]
  · intro d
    cases cat <;> cases cur <;> simp [buildConstraints, eq_comm]
  · intro m
    cases cat <;> cases cur <;> simp [buildConstraints, eq_comm]
  · intro h
    rw [h]
    rfl

/-- C5 witness: concrete options with a category, a cursor, and an
unspecified page size. -/
theorem claim5_query_construction_witness :
    buildConstraints (some "tech") (some sampleDoc2)
        ((none : Option Nat).getD 5)
        = [QueryConstraint.whereCategoryEq "tech"]
          ++ [QueryConstraint.orderByCreatedAtDesc]
          ++ [QueryConstraint.startAfterDoc sampleDoc2]
          ++ [QueryConstraint.limitN ((none : Option Nat).getD 5 + 1)]
    ∧ (∀ c, QueryConstraint.whereCategoryEq c
          ∈ buildConstraints (some "tech") (some sampleDoc2) ((none : Option Nat).getD 5)
        ↔ (some "tech" : Option String) = some c)
    ∧ (∀ d, QueryConstraint.startAfterDoc d
          ∈ buildConstraints (some "tech") (some sampleDoc2) ((none : Option Nat).getD 5)
        ↔ (some sampleDoc2 : Option RawDoc) = some d)
    ∧ (∀ m, QueryConstraint.limitN m
          ∈ buildConstraints (some "tech") (some sampleDoc2) ((none : Option Nat).getD 5)
        ↔ m = (none : Option Nat).getD 5 + 1)
    ∧ ((none : Option Nat) = none → (none : Option Nat).getD 5 = 5)
    ∧ getPostsWithOptions [sampleDoc] ⟨some "tech", none, some sampleDoc2⟩
        = getPostsPage ((none : Option Nat).getD 5)
            (storeExec [sampleDoc]
              (buildConstraints (some "tech") (some sampleDoc2)
                ((none : Option Nat).getD 5))) :=
  claim5_query_construction ⟨some "tech", none, some sampleDoc2⟩ [sampleDoc]

/-- C6: the standing query of `subscribeToPostsRealtime` carries the
category filter iff provided, the descending `createdAt` sort, and a
bound of exactly `pageSize` (default 20) with no cursor constraint; the
callback fires once immediately with the normalized then-current matching
set and once per subsequent store-delivered snapshot. -/
theorem claim6_subscribe_registration (options : SubscribeOptions)
    (initial : List RawDoc) (updates : List (List RawDoc)) :
    subscribeConstraints options.category (options.limitCount.getD 20)
        = (match options.category with
            | some c => [QueryConstraint.whereCategoryEq c]
            | none => [])
          ++ [QueryConstraint.orderByCreatedAtDesc,
              QueryConstraint.limitN (options.limitCount.getD 20)]
    ∧ (∀ d, QueryConstraint.startAfterDoc d
          ∉ subscribeConstraints options.category (options.limitCount.getD 20))
    ∧ (∀ m, QueryConstraint.limitN m
          ∈ subscribeConstraints options.category (options.limitCount.getD 20)
        ↔ m = options.limitCount.getD 20)
    ∧ (options.limitCount = none → options.limitCount.getD 20 = 20)
    ∧ subscribeInvocations options initial updates
        = (initial :: updates).map (fun coll =>
            (storeExec coll
              (subscribeConstraints options.category
                (options.limitCount.getD 20))).map summarizeListed)
    ∧ (subscribeInvocations options initial updates).length = updates.length + 1
    ∧ (subscribeInvocations options initial updates).head?
        = some ((storeExec initial
            (subscribeConstraints options.category
              (options.limitCount.getD 20))).map summarizeListed) := by
  obtain ⟨cat, lim⟩ := options
  refine ⟨rfl, ?_, ?_, ?_, rfl, ?_, rfl⟩
  · intro d
    cases cat <;> simp [subscribeConstraints]
  · intro m
    cases cat <;> simp [subscribeConstraints, eq_comm]
  · intro h
    rw [h]
    rfl
  · simp [subscribeInvocations]

/-- C6 witness: a concrete subscription with a category filter, a
two-document initial state and one update. -/
theorem claim6_subscribe_registration_witness :
    subscribeConstraints (some "life") ((some 2 : Option Nat).getD 20)
        = [QueryConstraint.whereCategoryEq "life"]
          ++ [QueryConstraint.orderByCreatedAtDesc,
              QueryConstraint.limitN ((some 2 : Option Nat).getD 20)]
    ∧ (∀ d, QueryConstraint.startAfterDoc d
          ∉ subscribeConstraints (some "life") ((some 2 : Option Nat).getD 20))
    ∧ (∀ m, QueryConstraint.limitN m
          ∈ subscribeConstraints (some "life") ((some 2 : Option Nat).getD 20)
        ↔ m = (some 2 : Option Nat).getD 20)
    ∧ ((some 2 : Option Nat) = none → (some 2 : Option Nat).getD 20 = 20)
    ∧ subscribeInvocations ⟨some "life", some 2⟩ [sampleDoc, sampleDoc2] [[sampleDoc2]]
        = ([sampleDoc, sampleDoc2] :: [[sampleDoc2]]).map (fun coll =>
            (storeExec coll
              (subscribeConstraints (some "life")
                ((some 2 : Option Nat).getD 20))).map summarizeListed)
    ∧ (subscribeInvocations ⟨some "life", some 2⟩ [sampleDoc, sampleDoc2]
          [[sampleDoc2]]).length = [[sampleDoc2]].length + 1
    ∧ (subscribeInvocations ⟨some "life", some 2⟩ [sampleDoc, sampleDoc2]
          [[sampleDoc2]]).head?
        = some ((storeExec [sampleDoc, sampleDoc2]
            (subscribeConstraints (some "life")
              ((some 2 : Option Nat).getD 20))).map summarizeListed) :=
  claim6_subscribe_registration ⟨some "life", some 2⟩ [sampleDoc, sampleDoc2]
    [[sampleDoc2]]

theorem invocationsAfter_not_mem (s : Nat) :
    ∀ (es : List StoreEvent) (active : List Nat), s ∉ active →
      ∀ l ∈ invocationsAfter active es, s ∉ l := by
  intro es
  induction es with
  | nil =>
    intro active _ l hl
    simp [invocationsAfter] at hl
  | cons e es ih =>
    intro active h l hl
    cases e with
    | change newDocs =>
      simp only [invocationsAfter, List.mem_cons] at hl
      rcases hl with rfl | hl
      · exact h
      · exact ih active h l hl
    | cancel t =>
      simp only [invocationsAfter, List.mem_cons] at hl
      rcases hl with rfl | hl
      · simp
      · exact ih (active.erase t) (fun hmem => h (List.mem_of_mem_erase hmem)) l hl

theorem invocationsAfter_mem_getD (s' : Nat) :
    ∀ (es : List StoreEvent) (A B : List Nat), A.Nodup → B.Nodup →
      (s' ∈ A ↔ s' ∈ B) → ∀ j : Nat,
        (s' ∈ (invocationsAfter A es).getD j []
          ↔ s' ∈ (invocationsAfter B es).getD j []) := by
  intro es
  induction es with
  | nil =>
    intro A B _ _ _ j
    simp [invocationsAfter]
  | cons e es ih =>
    intro A B hA hB hAB j
    cases e with
    | change newDocs =>
      cases j with
      | zero => simpa [invocationsAfter] using hAB
      | succ j => simpa [invocationsAfter] using ih A B hA hB hAB j
    | cancel t =>
      cases j with
      | zero => simp [invocationsAfter]
      | succ j =>
        simp only [invocationsAfter, List.getD_cons_succ]
        apply ih (A.erase t) (B.erase t) (hA.erase t) (hB.erase t)
        rw [hA.mem_erase_iff, hB.mem_erase_iff, hAB]

/-- C7: once `cancel` runs for subscription `s`, no later invocation list
contains `s` however the data changes afterwards, and deliveries to every
other subscription are unaffected by the cancellation. -/
theorem claim7_cancel_silence (active : List Nat) (es : List StoreEvent)
    (s : Nat) (hnd : active.Nodup) :
    invocationsAfter active (StoreEvent.cancel s :: es)
        = [] :: invocationsAfter (active.erase s) es
    ∧ (∀ l ∈ invocationsAfter (active.erase s) es, s ∉ l)
    ∧ (∀ s', s' ≠ s → ∀ j : Nat,
        (s' ∈ (invocationsAfter (active.erase s) es).getD j []
          ↔ s' ∈ (invocationsAfter active es).getD j [])) := by
  refine ⟨rfl, ?_, ?_⟩
  · exact invocationsAfter_not_mem s es (active.erase s)
      (fun hmem => ((hnd.mem_erase_iff).mp hmem).1 rfl)
  · intro s' hne j
    exact invocationsAfter_mem_getD s' es (active.erase s) active (hnd.erase s) hnd
      ⟨fun h => ((hnd.mem_erase_iff).mp h).2,
        fun h => (hnd.mem_erase_iff).mpr ⟨hne, h⟩⟩ j

/-- C7 witness: two registered subscriptions, one cancelled, one later
data change. -/
theorem claim7_cancel_silence_witness :
    invocationsAfter [1, 2] (StoreEvent.cancel 1 :: [StoreEvent.change []])
        = [] :: invocationsAfter ([1, 2].erase 1) [StoreEvent.change []]
    ∧ (∀ l ∈ invocationsAfter ([1, 2].erase 1) [StoreEvent.change []], 1 ∉ l)
    ∧ (∀ s', s' ≠ 1 → ∀ j : Nat,
        (s' ∈ (invocationsAfter ([1, 2].erase 1) [StoreEvent.change []]).getD j []
          ↔ s' ∈ (invocationsAfter [1, 2] [StoreEvent.change []]).getD j [])) :=
  claim7_cancel_silence [1, 2] [StoreEvent.change []] 1 (by decide)

/-- C8: when the store rejects the issued query, `getPostsWithOptions`
fails with exactly the store's error — no retry, no fallback, no partial
result. -/
theorem claim8_error_propagation {ε : Type}
    (exec : List QueryConstraint → Except ε (List RawDoc))
    (options : GetPostsOptions) (e : ε)
    (herr : exec (buildConstraints options.category options.lastDoc
        (options.limitCount.getD 5)) = Except.error e) :
    getPostsWithOptionsE exec options = Except.error e := by
  show (match exec (buildConstraints options.category options.lastDoc
        (options.limitCount.getD 5)) with
    | Except.error e => (Except.error e : Except ε GetPostsResult)
    | Except.ok snapshotDocs =>
        Except.ok (getPostsPage (options.limitCount.getD 5) snapshotDocs))
      = Except.error e
  rw [herr]

/-- C8 witness: a store executor that rejects every query. -/
theorem claim8_error_propagation_witness :
    getPostsWithOptionsE (fun _ => (Except.error 42 : Except Nat (List RawDoc)))
        ⟨none, none, none⟩
      = Except.error 42 :=
  claim8_error_propagation (fun _ => Except.error 42) ⟨none, none, none⟩ 42 rfl

/-- C9: the two `getPosts` exports issue the same descending-`createdAt`
query and normalize the same snapshot to the same summary list, so they
are equivalent. -/
theorem claim9_getPosts_equivalent (snapshotDocs : List RawDoc) :
    getPostsConstraintsCopy = getPostsConstraintsMain
    ∧ getPostsMap_copy snapshotDocs = getPostsMap_main snapshotDocs
    ∧ getPostsMap_main snapshotDocs = snapshotDocs.map summarizeFull :=
  ⟨rfl, rfl, rfl⟩

/-- C10: with `pageSize = 0` on a non-empty matching set, the issued
bound is 1, and the call returns no items, a null cursor, and
`hasMore = true`, so the caller cannot make progress. -/
theorem claim10_zero_pageSize (coll : List RawDoc) (category : Option String)
    (hne : coll.filter (matchesCategory category) ≠ []) :
    getPostsWithOptions coll ⟨category, some 0, none⟩
        = ⟨[], none, true⟩
    ∧ QueryConstraint.limitN 1 ∈ buildConstraints category none 0 := by
  constructor
  · rw [getPostsWithOptions_eq_page]
    have hM : (sortedMatching coll category).length ≠ 0 := by
      intro h0
      have h1 := (perm_sortedMatching coll category).length_eq
      exact hne (List.eq_nil_of_length_eq_zero (by omega))
    have htake : 0 < ((sortedMatching coll category).take (0 + 1)).length := by
      rw [List.length_take]
      omega
    show getPostsPage 0 ((sortedMatching coll category).take (0 + 1)) = _
    rw [getPostsPage_of_lt htake]
    simp
  · cases category <;> simp [buildConstraints]

/-- C10 witness: a one-document collection with no category filter. -/
theorem claim10_zero_pageSize_witness :
    getPostsWithOptions [sampleDoc] ⟨none, some 0, none⟩
        = ⟨[], none, true⟩
    ∧ QueryConstraint.limitN 1 ∈ buildConstraints none none 0 :=
  claim10_zero_pageSize [sampleDoc] none (by decide)

end DevBlog
